import Mathlib

/-!
Verification development for the bildir.az scraping pipeline
(`scripts/scraper.py`) and chart generator (`scripts/generate_charts.py`).

The Python code is shallowly embedded: HTML documents are modelled as the
structured data the BeautifulSoup selector calls return (each selector call
site becomes a field holding its result), machine text is `String`/`List Char`,
and the regular-expression searches of the source are implemented directly
as executable functions with Python `re.search` semantics (leftmost match,
greedy quantifiers with backtracking, as required by each concrete pattern).
Python `float` values are modelled as exact rationals `ℚ`; the `float(v)`
parser accepts the finite decimal numerals (optional sign, decimal point,
exponent) that occur in this pipeline's data.
-/

namespace Bildir

/-! ### Basic string machinery shared by the embedding -/

/-- ASCII whitespace recognised by Python's `\s` class and `str.strip`
(restricted to ASCII, which covers the texts this pipeline handles). -/
def isPyWs (c : Char) : Bool :=
  c = ' ' || c = '\t' || c = '\n' || c = '\r' || c = '\x0b' || c = '\x0c'

/-- The character class `[\d,\.]` used by the percentage regexes. -/
def isNumClass (c : Char) : Bool :=
  c.isDigit || c = ',' || c = '.'

/-- Charwise form of Python's `s.replace(",", ".")` (single-character
pattern, so per-character mapping is exact). -/
def dotifyL (l : List Char) : List Char :=
  l.map fun c => if c = ',' then '.' else c

/-- `s.replace(",", ".")` on strings. -/
def dotify (s : String) : String :=
  String.mk (dotifyL s.toList)

/-- Does `pat` occur at the head of `l`?  (Matcher for a literal.) -/
def leadsList : List Char → List Char → Bool
  | [], _ => true
  | _ :: _, [] => false
  | p :: ps, h :: hs => p = h && leadsList ps hs

/-- Python's substring test `pat in hay`. -/
def occursIn (pat : List Char) : List Char → Bool
  | [] => pat.isEmpty
  | h :: hs => leadsList pat (h :: hs) || occursIn pat hs

/-- Drop a case-sensitive literal, returning the remainder on success. -/
def dropLit : List Char → List Char → Option (List Char)
  | [], l => some l
  | _ :: _, [] => none
  | p :: ps, h :: hs => if p = h then dropLit ps hs else none

/-- ASCII-case-insensitive character comparison (model of `re.IGNORECASE`
for the ASCII letters appearing in the source's patterns). -/
def ciEq (a b : Char) : Bool := a.toLower = b.toLower

/-- Drop a case-insensitive literal, returning the remainder on success. -/
def dropLitCI : List Char → List Char → Option (List Char)
  | [], l => some l
  | _ :: _, [] => none
  | p :: ps, h :: hs => if ciEq p h then dropLitCI ps hs else none

/-- `re.search` driver: try the anchored matcher at every start position,
leftmost first (including the empty suffix, as Python does). -/
def searchWith {α : Type} (m : List Char → Option α) : List Char → Option α
  | [] => m []
  | c :: rest =>
    match m (c :: rest) with
    | some a => some a
    | none => searchWith m rest

/-- Greedy `+`-group with backtracking: the first argument is the reversed
maximal run of class characters, the second the remainder after it.  The
longest run prefix whose remainder satisfies `k` is returned (Python's
greedy match shrinking from the right). -/
def shrinkMatch (k : List Char → Bool) : List Char → List Char → Option (List Char)
  | [], _ => none
  | c :: cs, rest =>
    if k rest then some ((c :: cs).reverse)
    else shrinkMatch k cs (c :: rest)

/-- Does the list start with `\s*` followed by a literal `%`? -/
def spacesThenPct (l : List Char) : Bool :=
  match l.dropWhile isPyWs with
  | '%' :: _ => true
  | _ => false

/-- Anchored matcher for `([\d,\.]+)\s*%`, returning the group. -/
def groupPctAt (l : List Char) : Option (List Char) :=
  let run := l.takeWhile isNumClass
  shrinkMatch spacesThenPct run.reverse (l.drop run.length)

/-- Anchored matcher for `([\d,\.]+)` (greedy, no suffix): the maximal
class run starting here, if nonempty. -/
def numRunAt (l : List Char) : Option (List Char) :=
  let run := l.takeWhile isNumClass
  if run = [] then none else some run

/-- `_pct` of `scraper.py`: extract a numeric percentage from text like
`'54,5%'`, normalising `,` to `.`; fall back to the first number-like
substring when no `%`-suffixed number exists; `''` when neither regex
matches. -/
def pct (text : String) : String :=
  match searchWith groupPctAt text.toList with
  | some g => String.mk (dotifyL g)
  | none =>
    match searchWith numRunAt text.toList with
    | some g => String.mk (dotifyL g)
    | none => ""

/-! ### Listing stubs and the deduplicator -/

/-- A company stub produced by `parse_listing_page`. -/
structure Stub where
  slug : String
  name : String
  category : String
  rating_listing : String
  review_count_listing : String
deriving DecidableEq, Repr

/-- The dedup loop of `main` (lines 346–352): a seen-set of slugs, keeping
the first-seen stub for each slug, in order. -/
def dedupStubs : List Stub → List String → List Stub
  | [], _ => []
  | s :: rest, seen =>
    if s.slug ∈ seen then dedupStubs rest seen
    else s :: dedupStubs rest (s.slug :: seen)

theorem dedupStubs_sublist : ∀ (stubs : List Stub) (seen : List String),
    (dedupStubs stubs seen).Sublist stubs := by
  intro stubs
  induction stubs with
  | nil => intro seen; simp [dedupStubs]
  | cons s rest ih =>
    intro seen
    by_cases h : s.slug ∈ seen
    · simp only [dedupStubs, if_pos h]
      exact (ih seen).cons s
    · simp only [dedupStubs, if_neg h]
      exact (ih (s.slug :: seen)).cons₂ s

theorem dedupStubs_not_seen : ∀ (stubs : List Stub) (seen : List String) (t : Stub),
    t ∈ dedupStubs stubs seen → t.slug ∉ seen := by
  intro stubs
  induction stubs with
  | nil => intro seen t ht; simp [dedupStubs] at ht
  | cons s rest ih =>
    intro seen t ht
    by_cases h : s.slug ∈ seen
    · simp only [dedupStubs, if_pos h] at ht
      exact ih seen t ht
    · simp only [dedupStubs, if_neg h, List.mem_cons] at ht
      rcases ht with rfl | ht
      · exact h
      · have := ih _ t ht
        intro hmem
        exact this (List.mem_cons_of_mem _ hmem)

theorem dedupStubs_nodup : ∀ (stubs : List Stub) (seen : List String),
    ((dedupStubs stubs seen).map Stub.slug).Nodup := by
  intro stubs
  induction stubs with
  | nil => intro seen; simp [dedupStubs]
  | cons s rest ih =>
    intro seen
    by_cases h : s.slug ∈ seen
    · simp only [dedupStubs, if_pos h]; exact ih seen
    · simp only [dedupStubs, if_neg h, List.map_cons, List.nodup_cons]
      refine ⟨?_, ih (s.slug :: seen)⟩
      intro hmem
      rcases List.mem_map.mp hmem with ⟨t, htmem, hteq⟩
      have := dedupStubs_not_seen rest (s.slug :: seen) t htmem
      exact this (by simp [hteq])

theorem dedupStubs_covers : ∀ (stubs : List Stub) (seen : List String) (s : Stub),
    s ∈ stubs → s.slug ∉ seen → s.slug ∈ (dedupStubs stubs seen).map Stub.slug := by
  intro stubs
  induction stubs with
  | nil => intro seen s hs; simp at hs
  | cons a rest ih =>
    intro seen s hs hnot
    by_cases h : a.slug ∈ seen
    · simp only [dedupStubs, if_pos h]
      rcases List.mem_cons.mp hs with rfl | hs'
      · exact absurd h hnot
      · exact ih seen s hs' hnot
    · simp only [dedupStubs, if_neg h, List.map_cons, List.mem_cons]
      rcases List.mem_cons.mp hs with rfl | hs'
      · exact Or.inl rfl
      · by_cases heq : s.slug = a.slug
        · exact Or.inl heq
        · exact Or.inr (ih (a.slug :: seen) s hs' (by simp [hnot, heq]))

theorem dedupStubs_first_seen : ∀ (stubs : List Stub) (seen : List String) (t : Stub),
    t ∈ dedupStubs stubs seen →
    ∃ l₁ l₂, stubs = l₁ ++ t :: l₂ ∧ ∀ u ∈ l₁, u.slug ≠ t.slug := by
  intro stubs
  induction stubs with
  | nil => intro seen t ht; simp [dedupStubs] at ht
  | cons s rest ih =>
    intro seen t ht
    by_cases h : s.slug ∈ seen
    · simp only [dedupStubs, if_pos h] at ht
      rcases ih seen t ht with ⟨l₁, l₂, hsplit, hne⟩
      refine ⟨s :: l₁, l₂, by simp [hsplit], ?_⟩
      intro u hu
      rcases List.mem_cons.mp hu with rfl | hu'
      · have := dedupStubs_not_seen rest seen t ht
        intro heq; exact this (heq ▸ h)
      · exact hne u hu'
    · simp only [dedupStubs, if_neg h, List.mem_cons] at ht
      rcases ht with rfl | ht'
      · exact ⟨[], rest, rfl, by simp⟩
      · rcases ih _ t ht' with ⟨l₁, l₂, hsplit, hne⟩
        refine ⟨s :: l₁, l₂, by simp [hsplit], ?_⟩
        intro u hu
        rcases List.mem_cons.mp hu with rfl | hu'
        · have := dedupStubs_not_seen rest (u.slug :: seen) t ht'
          intro heq; exact this (by simp [heq])
        · exact hne u hu'

/-- C1: the dedup step of `main` keeps each slug exactly once, preserves
the listing order (so slugs appear in order of first appearance), covers
every incoming slug, and each kept stub is the first-seen stub of its
slug. -/
theorem dedup_first_seen_unique (stubs : List Stub) :
    ((dedupStubs stubs []).map Stub.slug).Nodup ∧
    (∀ s ∈ stubs, s.slug ∈ (dedupStubs stubs []).map Stub.slug) ∧
    (dedupStubs stubs []).Sublist stubs ∧
    (∀ t ∈ dedupStubs stubs [], ∃ l₁ l₂, stubs = l₁ ++ t :: l₂ ∧
      ∀ u ∈ l₁, u.slug ≠ t.slug) := by
  refine ⟨dedupStubs_nodup stubs [], ?_, dedupStubs_sublist stubs [], ?_⟩
  · intro s hs
    exact dedupStubs_covers stubs [] s hs (by simp)
  · intro t ht
    exact dedupStubs_first_seen stubs [] t ht

/-- Concrete input with a repeated slug, exercising `dedup_first_seen_unique`. -/
def stubsExample : List Stub :=
  [⟨"acme", "Acme", "Banklar", "4.5", "10"⟩,
   ⟨"beta", "Beta", "", "", ""⟩,
   ⟨"acme", "Acme duplicate", "Digər", "1.0", "3"⟩]

theorem dedup_first_seen_unique_witness :
    (⟨"beta", "Beta", "", "", ""⟩ : Stub) ∈ stubsExample ∧
    ("beta" : String) ∈ (dedupStubs stubsExample []).map Stub.slug :=
  ⟨by decide,
   (dedup_first_seen_unique stubsExample).2.1 ⟨"beta", "Beta", "", "", ""⟩ (by decide)⟩

/-! ### The HTTP fetcher `get` (lines 79–91) -/

def BASE_URL : String := "https://www.bildir.az"

def MAX_RETRIES : Nat := 3

/-- `REQUEST_DELAY = 1.0` seconds, as an exact rational. -/
def REQUEST_DELAY : ℚ := 1

/-- Trace of one call to `get`: the returned document (`None` on failure),
the durations slept between attempts, and the number of fetch attempts
made. -/
structure GetResult (α : Type) where
  result : Option α
  sleeps : List ℚ
  attempts : Nat
deriving Repr

/-- The retry loop of `get`.  `attempt` is the 1-based loop counter and
`fuel` the number of loop iterations remaining (`range(1, MAX_RETRIES+1)`
supplies exactly `MAX_RETRIES` iterations).  `fetch attempt` is the outcome
of the network request of that attempt: `some doc` when
`session.get`/`raise_for_status`/parsing succeed, `none` when a
`RequestException` is raised. -/
def getLoop {α : Type} (fetch : Nat → Option α) : Nat → Nat → GetResult α
  | _, 0 => ⟨none, [], 0⟩
  | attempt, fuel + 1 =>
    match fetch attempt with
    | some d => ⟨some d, [], 1⟩
    | none =>
      if attempt < MAX_RETRIES then
        let r := getLoop fetch (attempt + 1) fuel
        ⟨r.result, (attempt : ℚ) * REQUEST_DELAY :: r.sleeps, r.attempts + 1⟩
      else ⟨none, [], 1⟩

/-- One call of `get`, starting at attempt 1 with `MAX_RETRIES` iterations. -/
def getCall {α : Type} (fetch : Nat → Option α) : GetResult α :=
  getLoop fetch 1 MAX_RETRIES

/-- C4: `get` makes at most 3 attempts; it returns the document of the
first successful attempt; it sleeps `attempt × REQUEST_DELAY` after each
failed non-final attempt (and never after the last one), so the sleep list
is `[1·d, …, (attempts−1)·d]`; and when all 3 attempts fail it returns
`none` rather than raising. -/
theorem get_retries_bounded_backoff {α : Type} (fetch : Nat → Option α) :
    (getCall fetch).attempts ≤ 3 ∧
    (getCall fetch).result =
      ((fetch 1).orElse fun _ => (fetch 2).orElse fun _ => fetch 3) ∧
    (getCall fetch).sleeps =
      (List.range' 1 ((getCall fetch).attempts - 1)).map
        (fun a => (a : ℚ) * REQUEST_DELAY) ∧
    (fetch 1 = none → fetch 2 = none → fetch 3 = none →
      (getCall fetch).result = none) := by
  cases h1 : fetch 1 <;> cases h2 : fetch 2 <;> cases h3 : fetch 3 <;>
    simp [getCall, getLoop, MAX_RETRIES, h1, h2, h3, Option.orElse, List.range']

theorem get_retries_bounded_backoff_witness :
    (getCall (fun (_ : Nat) => (none : Option Nat))).result = none ∧
    (getCall (fun (_ : Nat) => (none : Option Nat))).sleeps =
      [1 * REQUEST_DELAY, 2 * REQUEST_DELAY] := by
  refine ⟨(get_retries_bounded_backoff (fun _ => (none : Option Nat))).2.2.2
    rfl rfl rfl, ?_⟩
  have h := (get_retries_bounded_backoff (fun _ => (none : Option Nat))).2.2.1
  have ha : (getCall (fun (_ : Nat) => (none : Option Nat))).attempts = 3 := rfl
  rw [h, ha]
  norm_num [List.range']

/-! ### The company record (`CSV_FIELDS`) and the backfill step of `main` -/

/-- One output row; the 22 fields of `CSV_FIELDS`, all textual. -/
structure CompanyRecord where
  slug : String
  name : String
  category : String
  founded : String
  description : String
  website : String
  facebook : String
  instagram : String
  linkedin : String
  youtube : String
  twitter : String
  overall_rating : String
  total_reviews : String
  response_rate_pct : String
  resolved_complaints_pct : String
  customer_loyalty_pct : String
  star5_pct : String
  star4_pct : String
  star3_pct : String
  star2_pct : String
  star1_pct : String
  profile_url : String
deriving DecidableEq, Repr

/-- `{f: "" for f in CSV_FIELDS}`. -/
def emptyRecord : CompanyRecord :=
  ⟨"", "", "", "", "", "", "", "", "", "", "",
   "", "", "", "", "", "", "", "", "", "", ""⟩

/-- The backfill step of `main` (lines 365–373): copy the listing value
into `name`, `category`, `overall_rating`, `total_reviews` only when the
detail-extracted value is empty. -/
def backfill (detail : CompanyRecord) (stub : Stub) : CompanyRecord :=
  let d1 := if detail.name = "" then { detail with name := stub.name } else detail
  let d2 := if d1.category = "" then { d1 with category := stub.category } else d1
  let d3 := if d2.overall_rating = "" then
      { d2 with overall_rating := stub.rating_listing } else d2
  if d3.total_reviews = "" then
    { d3 with total_reviews := stub.review_count_listing } else d3

/-- C3: backfill touches only `name`, `category`, `overall_rating`,
`total_reviews`, each exactly when the detail value is empty (never
overwriting a non-empty detail value), and leaves the remaining 18 fields
unchanged. -/
theorem backfill_only_when_empty (d : CompanyRecord) (s : Stub) :
    (backfill d s).name = (if d.name = "" then s.name else d.name) ∧
    (backfill d s).category = (if d.category = "" then s.category else d.category) ∧
    (backfill d s).overall_rating =
      (if d.overall_rating = "" then s.rating_listing else d.overall_rating) ∧
    (backfill d s).total_reviews =
      (if d.total_reviews = "" then s.review_count_listing else d.total_reviews) ∧
    (backfill d s).slug = d.slug ∧
    (backfill d s).founded = d.founded ∧
    (backfill d s).description = d.description ∧
    (backfill d s).website = d.website ∧
    (backfill d s).facebook = d.facebook ∧
    (backfill d s).instagram = d.instagram ∧
    (backfill d s).linkedin = d.linkedin ∧
    (backfill d s).youtube = d.youtube ∧
    (backfill d s).twitter = d.twitter ∧
    (backfill d s).response_rate_pct = d.response_rate_pct ∧
    (backfill d s).resolved_complaints_pct = d.resolved_complaints_pct ∧
    (backfill d s).customer_loyalty_pct = d.customer_loyalty_pct ∧
    (backfill d s).star5_pct = d.star5_pct ∧
    (backfill d s).star4_pct = d.star4_pct ∧
    (backfill d s).star3_pct = d.star3_pct ∧
    (backfill d s).star2_pct = d.star2_pct ∧
    (backfill d s).star1_pct = d.star1_pct ∧
    (backfill d s).profile_url = d.profile_url := by
  unfold backfill
  by_cases h1 : d.name = "" <;> by_cases h2 : d.category = "" <;>
    by_cases h3 : d.overall_rating = "" <;> by_cases h4 : d.total_reviews = "" <;>
    simp [h1, h2, h3, h4]

/-! ### Detail pages and `parse_company_page` (lines 194–330)

A fetched detail page is modelled by the results of the BeautifulSoup
queries `parse_company_page` performs: each selector call site becomes a
field holding the text (or attribute) the call would return.  `none` means
the selector found no tag; `some t` a tag whose extracted text is `t`. -/

def digitsToNat (l : List Char) : Nat :=
  l.foldl (fun n c => n * 10 + (c.toNat - '0'.toNat)) 0

/-- `_text(soup, *selectors)`: the text of the first selector that finds a
tag (even when that text is empty), else `""`. -/
def firstTag : List (Option String) → String
  | [] => ""
  | some t :: _ => t
  | none :: rest => firstTag rest

/-- `re.sub(r"\D", "", t)`: keep only the digits. -/
def digitsOnly (t : String) : String :=
  String.mk (t.toList.filter Char.isDigit)

/-- Anchored matcher for `(\d+)\s*rəy` (IGNORECASE): greedy digit group
whose remainder is optional whitespace then the literal. -/
def reviewsPlainAt (l : List Char) : Option (List Char) :=
  let run := l.takeWhile Char.isDigit
  shrinkMatch (fun rest => (dropLitCI "rəy".toList (rest.dropWhile isPyWs)).isSome)
    run.reverse (l.drop run.length)

/-- Greedy `[^\d]*` (or a custom skip class) followed by a greedy
percentage group `\s*%`: try the longest skip first, giving characters
back one at a time (Python backtracking).  `skippedRev` is the reversed
skipped run, `rest` the remainder. -/
def skipThenGroup (cls : Char → Bool) : List Char → List Char → Option (List Char)
  | skippedRev, rest =>
    let run := rest.takeWhile cls
    match shrinkMatch spacesThenPct run.reverse (rest.drop run.length) with
    | some g => some g
    | none =>
      match skippedRev with
      | [] => none
      | c :: cs => skipThenGroup cls cs (c :: rest)

/-- Anchored matcher for `LIT1\s+LIT2[^\d]*([\d,\.]+)\s*%` (IGNORECASE),
the shape of the `response_rate_pct` and `resolved_complaints_pct`
patterns. -/
def statPctAt (lit1 lit2 : List Char) (l : List Char) : Option (List Char) := do
  let r1 ← dropLitCI lit1 l
  let ws := r1.takeWhile isPyWs
  if ws = [] then none else
  let r2 ← dropLitCI lit2 (r1.drop ws.length)
  let skip := r2.takeWhile (fun c => !c.isDigit)
  skipThenGroup isNumClass skip.reverse (r2.drop skip.length)

/-- Anchored matcher for `Müştəri\s+loyallığı[^\d\-]*([\-\d,\.]+)\s*%`
(IGNORECASE): the skip class also excludes `-`, and the group class
includes it. -/
def loyaltyPctAt (l : List Char) : Option (List Char) := do
  let r1 ← dropLitCI "Müştəri".toList l
  let ws := r1.takeWhile isPyWs
  if ws = [] then none else
  let r2 ← dropLitCI "loyallığı".toList (r1.drop ws.length)
  let skip := r2.takeWhile (fun c => !c.isDigit && c ≠ '-')
  let cls := fun c => isNumClass c || c = '-'
  let run := (r2.drop skip.length).takeWhile cls
  let rest := (r2.drop skip.length).drop run.length
  match shrinkMatch spacesThenPct run.reverse rest with
  | some g => some g
  | none => loyaltyShrink cls skip.reverse (r2.drop skip.length)

where
  /-- Backtracking of the greedy skip, as in `skipThenGroup`. -/
  loyaltyShrink (cls : Char → Bool) : List Char → List Char → Option (List Char)
    | [], _ => none
    | c :: cs, rest =>
      let rest' := c :: rest
      let run := rest'.takeWhile cls
      match shrinkMatch spacesThenPct run.reverse (rest'.drop run.length) with
      | some g => some g
      | none => loyaltyShrink cls cs rest'

/-- The star tiers in iteration order of `star_keys` (5 down to 1). -/
def starKeys : List Nat := [5, 4, 3, 2, 1]

def getStar (d : CompanyRecord) : Nat → String
  | 5 => d.star5_pct
  | 4 => d.star4_pct
  | 3 => d.star3_pct
  | 2 => d.star2_pct
  | 1 => d.star1_pct
  | _ => ""

def setStar (d : CompanyRecord) : Nat → String → CompanyRecord
  | 5, v => { d with star5_pct := v }
  | 4, v => { d with star4_pct := v }
  | 3, v => { d with star3_pct := v }
  | 2, v => { d with star2_pct := v }
  | 1, v => { d with star1_pct := v }
  | _, _ => d

/-- One star-row iteration (lines 311–318): the first star number whose
digit occurs in the row text receives `_pct(txt)` — but only when that
percentage is non-empty and the field is still empty — then `break`. -/
def starRowStep (d : CompanyRecord) (txt : String) : CompanyRecord :=
  match starKeys.find? (fun n => occursIn (toString n).toList txt.toList) with
  | some n =>
    let p := pct txt
    if p ≠ "" ∧ getStar d n = "" then setStar d n p else d
  | none => d

/-- The row-level star extraction: fold over the texts of the selected
star rows. -/
def starRowPhase (d : CompanyRecord) (rowTexts : List String) : CompanyRecord :=
  rowTexts.foldl starRowStep d

/-- Anchored matcher for the fallback pattern
`{n}\s*(?:ulduz|star)[^\d]*?([\d,\.]+)\s*%` (IGNORECASE).  The lazy
`[^\d]*?` advances one non-digit at a time, trying the greedy group at
each stop; a digit that does not start a successful group kills the
anchored match. -/
def lazyThenGroup : List Char → Option (List Char)
  | [] => none
  | c :: rest =>
    match groupPctAt (c :: rest) with
    | some g => some g
    | none => if c.isDigit then none else lazyThenGroup rest

def starFallbackAt (n : Nat) (l : List Char) : Option (List Char) := do
  let r1 ← dropLit (toString n).toList l
  let r2 := r1.dropWhile isPyWs
  let r3 ← match dropLitCI "ulduz".toList r2 with
           | some r => some r
           | none => dropLitCI "star".toList r2
  lazyThenGroup r3

/-- One iteration of the full-text star fallback (lines 321–328): only a
still-empty star field receives the comma-normalised group of the search. -/
def starFallbackStep (fullText : String) (d : CompanyRecord) (n : Nat) : CompanyRecord :=
  if getStar d n = "" then
    match searchWith (starFallbackAt n) fullText.toList with
    | some g => setStar d n (String.mk (dotifyL g))
    | none => d
  else d

/-- The full-text star fallback loop over the five tiers. -/
def starFallbackPhase (fullText : String) (d : CompanyRecord) : CompanyRecord :=
  starKeys.foldl (starFallbackStep fullText) d

/-- A fetched company detail page, as the results of the queries
`parse_company_page` makes of it. -/
structure DetailPage where
  /-- The four name selectors of `_text` (line 225). -/
  nameTags : List (Option String)
  /-- The three category selectors (line 229). -/
  categoryTags : List (Option String)
  /-- `soup.find(string=re.compile(r"Quruluş tarixi|Founded|Yaranma"))`:
  when a text node matches, the pair of its parent's text and the text of
  the parent's next sibling (if any). -/
  foundedNode : Option (String × Option String)
  /-- The five description selectors (line 243). -/
  descriptionTags : List (Option String)
  /-- `a.website-url-btn, [data-href], .company-website a`: the
  `data-href` attribute (when present) and the `href` (defaulted `""`). -/
  websiteTag : Option (Option String × String)
  /-- The `a[href^='http']` anchors, as (href, text) pairs. -/
  httpAnchors : List (String × String)
  facebookTag : Option String
  instagramTag : Option String
  linkedinTag : Option String
  youtubeTag : Option String
  twitterTag : Option String
  ratingTag : Option String
  reviewsTag : Option String
  /-- `soup.get_text()` (line 291). -/
  textPlain : String
  /-- The texts of `.star-row, .rating-row, .review-bar, li.star-item`. -/
  starRowTexts : List String
  /-- `soup.get_text(" ", strip=True)` (line 296). -/
  fullText : String

/-- Python's truthiness coalescing `a or b` for an optional string
attribute. -/
def orStr (a : Option String) (b : String) : String :=
  match a with
  | some s => if s = "" then b else s
  | none => b

def socialWords : List String :=
  ["facebook", "instagram", "linkedin", "twitter", "youtube"]

def lowerStr (s : String) : String := String.mk (s.toList.map Char.toLower)

/-- The field extraction performed on a successfully fetched page
(lines 224–330), applied to the already-initialised record. -/
def parseDetail (page : DetailPage) (d0 : CompanyRecord) : CompanyRecord :=
  let d1 := { d0 with name := firstTag page.nameTags }
  let d2 := { d1 with category := firstTag page.categoryTags }
  let d3 := match page.foundedNode with
    | some (_, some sib) => { d2 with founded := sib }
    | some (parent, none) => { d2 with founded := parent }
    | none => d2
  let d4 := { d3 with description := firstTag page.descriptionTags }
  let w1 := match page.websiteTag with
    | some (dataHref, href) => orStr dataHref href
    | none => ""
  let w2 := if w1 = "" then
      match page.httpAnchors.find? (fun a =>
        !occursIn BASE_URL.toList a.1.toList &&
        !occursIn "bildir".toList a.1.toList &&
        !socialWords.any (fun w => occursIn w.toList (lowerStr a.2).toList)) with
      | some a => a.1
      | none => ""
    else w1
  let d5 := { d4 with website := w2 }
  let d6 := { d5 with
    facebook := (page.facebookTag).getD d5.facebook,
    instagram := (page.instagramTag).getD d5.instagram,
    linkedin := (page.linkedinTag).getD d5.linkedin,
    youtube := (page.youtubeTag).getD d5.youtube,
    twitter := (page.twitterTag).getD d5.twitter }
  let d7 := match page.ratingTag with
    | some t => { d6 with overall_rating := dotify t }
    | none => d6
  let d8 := match page.reviewsTag with
    | some t => { d7 with total_reviews := digitsOnly t }
    | none =>
      match searchWith reviewsPlainAt page.textPlain.toList with
      | some g => { d7 with total_reviews := String.mk g }
      | none => d7
  let ft := page.fullText.toList
  let d9 := match searchWith (statPctAt "Cavab".toList "nisbəti".toList) ft with
    | some g => { d8 with response_rate_pct := String.mk (dotifyL g) }
    | none => d8
  let d10 := match searchWith (statPctAt "Həll".toList "edilmiş".toList) ft with
    | some g => { d9 with resolved_complaints_pct := String.mk (dotifyL g) }
    | none => d9
  let d11 := match searchWith loyaltyPctAt ft with
    | some g => { d10 with customer_loyalty_pct := String.mk (dotifyL g) }
    | none => d10
  let d12 := starRowPhase d11 page.starRowTexts
  starFallbackPhase page.fullText d12

/-- `parse_company_page` (lines 213–330).  `fetched` is the outcome of
`get(url)`: `none` after exhausted retries. -/
def parseCompanyPage (slug : String) (fetched : Option DetailPage) : CompanyRecord :=
  let url := BASE_URL ++ "/" ++ slug ++ "/"
  let data := { emptyRecord with slug := slug, profile_url := url }
  match fetched with
  | none => data
  | some page => parseDetail page data

/-! ### C2: the degraded record on fetch failure -/

/-- C2: when the detail fetch fails after exhausting retries,
`parse_company_page` returns a record whose `slug` is the input slug,
whose `profile_url` is the non-empty `BASE_URL/slug/`, and whose remaining
20 fields are all empty. -/
theorem parse_failure_degraded (slug : String) :
    (parseCompanyPage slug none).slug = slug ∧
    (parseCompanyPage slug none).profile_url = BASE_URL ++ "/" ++ slug ++ "/" ∧
    (parseCompanyPage slug none).profile_url ≠ "" ∧
    (parseCompanyPage slug none).name = "" ∧
    (parseCompanyPage slug none).category = "" ∧
    (parseCompanyPage slug none).founded = "" ∧
    (parseCompanyPage slug none).description = "" ∧
    (parseCompanyPage slug none).website = "" ∧
    (parseCompanyPage slug none).facebook = "" ∧
    (parseCompanyPage slug none).instagram = "" ∧
    (parseCompanyPage slug none).linkedin = "" ∧
    (parseCompanyPage slug none).youtube = "" ∧
    (parseCompanyPage slug none).twitter = "" ∧
    (parseCompanyPage slug none).overall_rating = "" ∧
    (parseCompanyPage slug none).total_reviews = "" ∧
    (parseCompanyPage slug none).response_rate_pct = "" ∧
    (parseCompanyPage slug none).resolved_complaints_pct = "" ∧
    (parseCompanyPage slug none).customer_loyalty_pct = "" ∧
    (parseCompanyPage slug none).star5_pct = "" ∧
    (parseCompanyPage slug none).star4_pct = "" ∧
    (parseCompanyPage slug none).star3_pct = "" ∧
    (parseCompanyPage slug none).star2_pct = "" ∧
    (parseCompanyPage slug none).star1_pct = "" := by
  refine ⟨rfl, rfl, ?_, rfl, rfl, rfl, rfl, rfl, rfl, rfl, rfl, rfl, rfl, rfl,
    rfl, rfl, rfl, rfl, rfl, rfl, rfl, rfl, rfl⟩
  intro h
  have hrfl : (parseCompanyPage slug none).profile_url
      = BASE_URL ++ "/" ++ slug ++ "/" := rfl
  rw [hrfl] at h
  have h' := congrArg String.length h
  rw [String.length_append, String.length_append, String.length_append] at h'
  have hb : BASE_URL.length = 21 := by decide
  have h1 : ("/" : String).length = 1 := rfl
  have h0 : ("" : String).length = 0 := rfl
  rw [hb, h1, h0] at h'
  omega

theorem parse_failure_degraded_witness :
    (parseCompanyPage "acme" none).slug = "acme" ∧
    (parseCompanyPage "acme" none).profile_url ≠ "" ∧
    (parseCompanyPage "acme" none).name = "" :=
  ⟨(parse_failure_degraded "acme").1, (parse_failure_degraded "acme").2.2.1,
   (parse_failure_degraded "acme").2.2.2.1⟩

/-! ### C7: row-level star extraction takes precedence over the fallback -/

theorem getStar_setStar_ne (d : CompanyRecord) (v : String) {m n : Nat} (h : n ≠ m) :
    getStar (setStar d m v) n = getStar d n := by
  rcases m with _|_|_|_|_|_|m <;> rcases n with _|_|_|_|_|_|n <;>
    first
      | rfl
      | exact absurd rfl h

theorem starFallbackStep_preserve (ft : String) (d : CompanyRecord) (m n : Nat)
    (hne : getStar d n ≠ "") :
    getStar (starFallbackStep ft d m) n = getStar d n := by
  unfold starFallbackStep
  by_cases hnm : n = m
  · subst hnm
    rw [if_neg hne]
  · split_ifs with hg
    · cases hs : searchWith (starFallbackAt m) ft.toList with
      | none => rfl
      | some g => exact getStar_setStar_ne d _ hnm
    · rfl

theorem starFold_preserve (ft : String) (keys : List Nat) :
    ∀ (d : CompanyRecord) (n : Nat), getStar d n ≠ "" →
      getStar (keys.foldl (starFallbackStep ft) d) n = getStar d n := by
  induction keys with
  | nil => intro d n _; rfl
  | cons k ks ih =>
    intro d n h
    have hstep := starFallbackStep_preserve ft d k n h
    simp only [List.foldl]
    rw [ih (starFallbackStep ft d k) n (by rw [hstep]; exact h), hstep]

theorem starFallbackPhase_preserve (ft : String) (d : CompanyRecord) (n : Nat)
    (h : getStar d n ≠ "") :
    getStar (starFallbackPhase ft d) n = getStar d n :=
  starFold_preserve ft starKeys d n h

/-- C7: a star-percentage field populated by the row-level extraction is
never overwritten by the full-text regex fallback — the fallback (as
composed at the end of `parseDetail`) writes only to still-empty star
fields. -/
theorem star_row_precedence (rowTexts : List String) (fullText : String)
    (d : CompanyRecord) (n : Nat) (_hn : n ∈ starKeys)
    (h : getStar (starRowPhase d rowTexts) n ≠ "") :
    getStar (starFallbackPhase fullText (starRowPhase d rowTexts)) n
      = getStar (starRowPhase d rowTexts) n :=
  starFallbackPhase_preserve fullText (starRowPhase d rowTexts) n h

theorem star_row_precedence_witness :
    getStar (starFallbackPhase "5 ulduz 99%"
      (starRowPhase { emptyRecord with star5_pct := "10" } [])) 5 = "10" :=
  star_row_precedence [] "5 ulduz 99%" { emptyRecord with star5_pct := "10" } 5
    (by decide) (by decide)

/-! ### C8: behaviour of the percentage extractor `_pct` -/

theorem dotifyL_no_comma (l : List Char) : ∀ c ∈ dotifyL l, c ≠ ',' := by
  intro c hc
  rcases List.mem_map.mp hc with ⟨x, _, rfl⟩
  by_cases hx : x = ',' <;> simp [hx]

theorem shrinkMatch_ne_nil (k : List Char → Bool) :
    ∀ rev rest g, shrinkMatch k rev rest = some g → g ≠ [] := by
  intro rev
  induction rev with
  | nil => intro rest g h; simp [shrinkMatch] at h
  | cons c cs ih =>
    intro rest g h
    simp only [shrinkMatch] at h
    split at h
    · cases h; simp
    · exact ih _ _ h

theorem groupPctAt_ne_nil (l g : List Char) (h : groupPctAt l = some g) : g ≠ [] :=
  shrinkMatch_ne_nil spacesThenPct _ _ _ h

theorem searchWith_group_ne_nil :
    ∀ l g, searchWith groupPctAt l = some g → g ≠ [] := by
  intro l
  induction l with
  | nil => intro g h; exact groupPctAt_ne_nil [] g h
  | cons c rest ih =>
    intro g h
    simp only [searchWith] at h
    cases hm : groupPctAt (c :: rest) with
    | some g' => rw [hm] at h; cases h; exact groupPctAt_ne_nil _ _ hm
    | none => rw [hm] at h; exact ih g h

theorem searchWith_num_some :
    ∀ l : List Char, l.any isNumClass →
      ∃ g, searchWith numRunAt l = some g ∧ g ≠ [] := by
  intro l
  induction l with
  | nil => intro h; simp at h
  | cons c rest ih =>
    intro h
    by_cases hc : isNumClass c
    · refine ⟨c :: rest.takeWhile isNumClass, ?_, by simp⟩
      simp [searchWith, numRunAt, List.takeWhile, hc]
    · have hrest : rest.any isNumClass := by
        simp only [List.any_cons, hc, Bool.false_or] at h
        exact h
      rcases ih hrest with ⟨g, hg, hgne⟩
      refine ⟨g, ?_, hgne⟩
      simp [searchWith, numRunAt, List.takeWhile, hc, hg]

theorem no_class_search_group (l : List Char) (h : ∀ c ∈ l, ¬ isNumClass c) :
    searchWith groupPctAt l = none := by
  induction l with
  | nil => simp [searchWith, groupPctAt, shrinkMatch]
  | cons c rest ih =>
    have hc : ¬ isNumClass c = true := h c (by simp)
    have hrun : (c :: rest).takeWhile isNumClass = [] := by
      simp [List.takeWhile, Bool.not_eq_true] at hc ⊢
      simp [hc]
    simp [searchWith, groupPctAt, hrun, shrinkMatch]
    exact ih fun x hx => h x (List.mem_cons_of_mem _ hx)

theorem no_class_search_num (l : List Char) (h : ∀ c ∈ l, ¬ isNumClass c) :
    searchWith numRunAt l = none := by
  induction l with
  | nil => simp [searchWith, numRunAt]
  | cons c rest ih =>
    have hc : ¬ isNumClass c = true := h c (by simp)
    have hrun : (c :: rest).takeWhile isNumClass = [] := by
      simp [List.takeWhile, Bool.not_eq_true] at hc ⊢
      simp [hc]
    simp [searchWith, numRunAt, hrun]
    exact ih fun x hx => h x (List.mem_cons_of_mem _ hx)

/-- C8 (amended): `_pct` normalises `,` to `.` in its result (shown both
in general — no comma survives — and on the spec's example `"54,5%"`), it
still extracts a number when the `%` suffix is absent, and it returns the
empty string exactly when the input has no character of the class
`[0-9,.]` (a digitless `","` or `"."` still yields a non-empty result). -/
theorem numRunAt_ne_nil (l g : List Char) (h : numRunAt l = some g) : g ≠ [] := by
  simp only [numRunAt] at h
  split at h
  · exact Option.noConfusion h
  · cases h; assumption

theorem searchWith_num_ne_nil :
    ∀ l g, searchWith numRunAt l = some g → g ≠ [] := by
  intro l
  induction l with
  | nil => intro g h; exact numRunAt_ne_nil [] g h
  | cons c rest ih =>
    intro g h
    simp only [searchWith] at h
    cases hm : numRunAt (c :: rest) with
    | some g' => rw [hm] at h; cases h; exact numRunAt_ne_nil _ _ hm
    | none => rw [hm] at h; exact ih g h

theorem mkStr_ne_empty (l : List Char) (h : l ≠ []) : String.mk l ≠ "" := by
  intro he
  exact h (congrArg String.data he)

theorem dotifyL_ne_nil (l : List Char) (h : l ≠ []) : dotifyL l ≠ [] := by
  simp [dotifyL]
  exact h

theorem pct_extraction (s : String) :
    (∀ c ∈ (pct s).toList, c ≠ ',') ∧
    (s.toList.any isNumClass → pct s ≠ "") ∧
    (pct s = "" ↔ ∀ c ∈ s.toList, ¬ isNumClass c) ∧
    pct "54,5%" = "54.5" ∧
    pct "Rəy: 3.4" = "3.4" := by
  have key : (∀ c ∈ (pct s).toList, c ≠ ',') ∧
      (pct s = "" ↔ ∀ c ∈ s.toList, ¬ isNumClass c) := by
    cases h1 : searchWith groupPctAt s.toList with
    | some g =>
      have hp : pct s = String.mk (dotifyL g) := by unfold pct; rw [h1]
      have hne : pct s ≠ "" := by
        rw [hp]
        exact mkStr_ne_empty _ (dotifyL_ne_nil _ (searchWith_group_ne_nil s.toList g h1))
      refine ⟨fun c hc => dotifyL_no_comma g c (by rw [hp] at hc; exact hc), ?_⟩
      constructor
      · intro h0; exact absurd h0 hne
      · intro hall
        rw [no_class_search_group s.toList hall] at h1
        exact Option.noConfusion h1
    | none =>
      cases h2 : searchWith numRunAt s.toList with
      | some g =>
        have hp : pct s = String.mk (dotifyL g) := by unfold pct; rw [h1, h2]
        have hne : pct s ≠ "" := by
          rw [hp]
          exact mkStr_ne_empty _ (dotifyL_ne_nil _ (searchWith_num_ne_nil s.toList g h2))
        refine ⟨fun c hc => dotifyL_no_comma g c (by rw [hp] at hc; exact hc), ?_⟩
        constructor
        · intro h0; exact absurd h0 hne
        · intro hall
          rw [no_class_search_num s.toList hall] at h2
          exact Option.noConfusion h2
      | none =>
        have hp : pct s = "" := by unfold pct; rw [h1, h2]
        refine ⟨by rw [hp]; simp, ?_⟩
        constructor
        · intro _ c hc hcls
          have hany : s.toList.any isNumClass :=
            List.any_eq_true.mpr ⟨c, hc, hcls⟩
          rcases searchWith_num_some s.toList hany with ⟨g, hg, _⟩
          rw [h2] at hg
          exact Option.noConfusion hg
        · intro _; exact hp
  have hne2 : s.toList.any isNumClass → pct s ≠ "" := by
    intro hcl h0
    rcases List.any_eq_true.mp hcl with ⟨c, hc, hcls⟩
    exact (key.2.mp h0) c hc hcls
  exact ⟨key.1, hne2, key.2, by decide, by decide⟩

/-- C8 counterexample to the claim as stated: `_pct(",")` contains no
digit yet returns the non-empty string `"."`. -/
theorem pct_counterexample :
    pct "," = "." ∧ (∀ c ∈ (",").toList, ¬ c.isDigit) ∧ pct "," ≠ "" := by
  decide

theorem pct_extraction_witness : pct "54,5%" ≠ "" :=
  (pct_extraction "54,5%").2.1 (by decide)

/-! ### Listing pages: `get_total_pages`, `parse_listing_page`,
`collect_all_slugs` (lines 97–188) and the abort decision of `main` -/

/-- An anchor `a.company-wrapper` of a listing page, as the query results
`parse_listing_page` reads from it. -/
structure ListingAnchor where
  href : String
  /-- `anchor.select_one("h5")`. -/
  h5Text : Option String
  /-- The texts of `anchor.select("p")`, in order. -/
  pTexts : List String
  /-- `.company-rating-number, .rating-number`. -/
  ratingTagText : Option String
  /-- The texts of `anchor.select("span, div")`, in order. -/
  spanDivTexts : List String
  /-- `anchor.get_text(" ", strip=True)`. -/
  fullText : String
deriving DecidableEq, Repr

/-- A fetched listing page: its company anchors and its pagination
markup (link hrefs and `li` texts). -/
structure ListingPage where
  anchors : List ListingAnchor
  pageLinkHrefs : List String
  pageLiTexts : List String
deriving DecidableEq, Repr

/-- Anchored matcher for `page=(\d+)`: the literal, then a nonempty greedy
digit run. -/
def pageNumAt (l : List Char) : Option Nat :=
  match dropLit "page=".toList l with
  | some rest =>
    let ds := rest.takeWhile Char.isDigit
    if ds = [] then none else some (digitsToNat ds)
  | none => none

/-- Python `txt.isdigit()` (ASCII digits, nonempty). -/
def isDigitStr (t : String) : Bool :=
  !t.toList.isEmpty && t.toList.all Char.isDigit

/-- `get_total_pages` (lines 97–112): the maximum page number referenced
by pagination links or digit-only pagination items, at least 1. -/
def getTotalPages (p : ListingPage) : Nat :=
  let m1 := p.pageLinkHrefs.foldl
    (fun mp href =>
      match searchWith pageNumAt href.toList with
      | some k => max mp k
      | none => mp) 1
  p.pageLiTexts.foldl
    (fun mp txt => if isDigitStr txt then max mp (digitsToNat txt.toList) else mp) m1

/-- `href.strip("/")`. -/
def stripSlash (s : List Char) : List Char :=
  ((s.dropWhile (· = '/')).reverse.dropWhile (· = '/')).reverse

/-- Python `s.split(sep)` for a one-character separator: empty parts are
kept, and the empty string yields `[""]`. -/
def splitChar (sep : Char) : List Char → List (List Char)
  | [] => [[]]
  | c :: rest =>
    let r := splitChar sep rest
    if c = sep then [] :: r
    else
      match r with
      | [] => [[c]]
      | h :: t => (c :: h) :: t

/-- `href.strip("/").split("/")[-1] if href else ""`. -/
def slugOfHref (href : String) : String :=
  if href = "" then ""
  else String.mk ((splitChar '/' (stripSlash href.toList)).getLastD [])

/-- `re.match(r"^\d\.\d$", t)`: `d.d`, with `$` also accepting one
trailing newline. -/
def isFloatLike (t : String) : Bool :=
  match t.toList with
  | [a, '.', b] => a.isDigit && b.isDigit
  | [a, '.', b, '\n'] => a.isDigit && b.isDigit
  | _ => false

/-- Anchored matcher for `Rəy\s*say[ıi]\s*:\s*(\d+)` (IGNORECASE). -/
def reviewCountAt (l : List Char) : Option (List Char) := do
  let r1 ← dropLitCI "Rəy".toList l
  let r2 ← dropLitCI "say".toList (r1.dropWhile isPyWs)
  let r3 ← match r2 with
           | c :: rest => if c = 'ı' ∨ c.toLower = 'i' then some rest else none
           | [] => none
  let r4 := r3.dropWhile isPyWs
  let r5 ← match r4 with
           | ':' :: rest => some rest
           | _ => none
  let r6 := r5.dropWhile isPyWs
  let ds := r6.takeWhile Char.isDigit
  if ds = [] then none else some ds

/-- The per-anchor body of `parse_listing_page` (lines 118–161); `none`
models the `continue` on an empty slug. -/
def parseAnchor (a : ListingAnchor) : Option Stub :=
  let slug := slugOfHref a.href
  if slug = "" then none
  else some {
    slug := slug,
    name := a.h5Text.getD "",
    category := (a.pTexts.find? fun t =>
      t ≠ "" && !occursIn "Rəy".toList t.toList &&
      !occursIn "www".toList t.toList).getD "",
    rating_listing := match a.ratingTagText with
      | some t => dotify t
      | none =>
        match a.spanDivTexts.find? (fun t => isFloatLike (dotify t)) with
        | some t => dotify t
        | none => "",
    review_count_listing :=
      match searchWith reviewCountAt a.fullText.toList with
      | some ds => String.mk ds
      | none => "" }

/-- `parse_listing_page`: one stub per anchor with a usable slug. -/
def parseListingPage (p : ListingPage) : List Stub :=
  p.anchors.filterMap parseAnchor

/-- `collect_all_slugs` (lines 165–188): page 1 decides the total page
count; failed later pages contribute nothing.  `fp pg` is the result of
`get(LIST_URL?page=pg)`. -/
def collectAllSlugs (fp : Nat → Option ListingPage) : List Stub :=
  match fp 1 with
  | none => []
  | some p1 =>
    (List.range' 2 (getTotalPages p1 - 1)).foldl
      (fun acc pg =>
        acc ++ (match fp pg with
                | some q => parseListingPage q
                | none => []))
      (parseListingPage p1)

/-- The output rows of one run of `main`: empty when the run aborts
(`if not stubs: return` writes nothing), otherwise one backfilled record
per deduplicated stub.  `fd slug` is the `get` result for the detail page
of `slug`. -/
def mainRun (fp : Nat → Option ListingPage)
    (fd : String → Option DetailPage) : List CompanyRecord :=
  let stubs := collectAllSlugs fp
  if stubs = [] then []
  else (dedupStubs stubs []).map
    fun stub => backfill (parseCompanyPage stub.slug (fd stub.slug)) stub

theorem foldl_append_eq {α : Type} (f : Nat → List α) :
    ∀ (l : List Nat) (init : List α),
      l.foldl (fun acc x => acc ++ f x) init = init ++ (l.map f).flatten := by
  intro l
  induction l with
  | nil => intro init; simp
  | cons x xs ih => intro init; simp [ih, List.append_assoc]

theorem getTotalPages_pos (p : ListingPage) : 1 ≤ getTotalPages p := by
  have step : ∀ (l : List String) (i : Nat),
      i ≤ l.foldl (fun mp txt =>
        if isDigitStr txt then max mp (digitsToNat txt.toList) else mp) i := by
    intro l
    induction l with
    | nil => intro i; simp
    | cons t ts ih =>
      intro i
      simp only [List.foldl]
      refine le_trans ?_ (ih _)
      split
      · exact Nat.le_max_left _ _
      · exact le_refl i
  have step1 : ∀ (l : List String) (i : Nat),
      i ≤ l.foldl (fun mp href =>
        match searchWith pageNumAt href.toList with
        | some k => max mp k
        | none => mp) i := by
    intro l
    induction l with
    | nil => intro i; simp
    | cons t ts ih =>
      intro i
      simp only [List.foldl]
      refine le_trans ?_ (ih _)
      cases searchWith pageNumAt t.toList
      · exact le_refl i
      · exact Nat.le_max_left _ _
  exact le_trans (step1 p.pageLinkHrefs 1) (step p.pageLiTexts _)

theorem dedupStubs_ne_nil (s : Stub) (rest : List Stub) :
    dedupStubs (s :: rest) [] ≠ [] := by
  simp [dedupStubs]

theorem collectAllSlugs_eq_nil (fp : Nat → Option ListingPage) :
    collectAllSlugs fp = [] ↔
      (fp 1 = none ∨ ∃ p1, fp 1 = some p1 ∧ parseListingPage p1 = [] ∧
        ∀ pg, 2 ≤ pg → pg ≤ getTotalPages p1 →
          ∀ q, fp pg = some q → parseListingPage q = []) := by
  cases h1 : fp 1 with
  | none => simp [collectAllSlugs, h1]
  | some p1 =>
    have hrw : collectAllSlugs fp
        = parseListingPage p1 ++
          ((List.range' 2 (getTotalPages p1 - 1)).map
            (fun pg => match fp pg with
                       | some q => parseListingPage q
                       | none => [])).flatten := by
      simp only [collectAllSlugs, h1]
      exact foldl_append_eq _ _ _
    rw [hrw]
    constructor
    · intro h
      rcases List.append_eq_nil.mp h with ⟨hfirst, hrest⟩
      refine Or.inr ⟨p1, rfl, hfirst, ?_⟩
      intro pg hpg2 hpgle q hq
      have hmem : pg ∈ List.range' 2 (getTotalPages p1 - 1) := by
        rw [List.mem_range'_1]
        constructor
        · exact hpg2
        · have := getTotalPages_pos p1
          omega
      have hflat := List.flatten_eq_nil_iff.mp hrest
      have := hflat _ (List.mem_map.mpr ⟨pg, hmem, rfl⟩)
      rw [hq] at this
      exact this
    · intro h
      rcases h with h | ⟨p1', hp1', hfirst, hrest⟩
      · exact Option.noConfusion h
      · cases hp1'
        rw [hfirst, List.nil_append]
        rw [List.flatten_eq_nil_iff]
        intro ys hys
        rcases List.mem_map.mp hys with ⟨pg, hpgmem, rfl⟩
        rw [List.mem_range'_1] at hpgmem
        cases hq : fp pg with
        | none => rfl
        | some q =>
          have := getTotalPages_pos p1
          exact hrest pg hpgmem.1 (by omega) q hq

/-- C5 counterexample to the claim as stated: a page-1 fetch that
*succeeds* but contains no company anchors also aborts the run (no rows
are written), so page-1 fetch failure is not the only abort condition. -/
theorem abort_counterexample :
    mainRun (fun _ => some ⟨[], [], []⟩) (fun _ => none) = [] ∧
    (fun (_ : Nat) => some (⟨[], [], []⟩ : ListingPage)) 1 ≠ none := by
  constructor
  · rfl
  · intro h; exact Option.noConfusion h

/-- C5 (amended): the run aborts (writes no rows) exactly when the
collected stub list is empty — page-1 fetch failure always aborts, but so
does a run in which every fetched listing page yields zero stubs; whenever
any stub is collected, the run writes one row per deduplicated stub. -/
theorem abort_conditions (fp : Nat → Option ListingPage)
    (fd : String → Option DetailPage) :
    (fp 1 = none → mainRun fp fd = []) ∧
    (mainRun fp fd = [] ↔ collectAllSlugs fp = []) ∧
    (collectAllSlugs fp = [] ↔
      (fp 1 = none ∨ ∃ p1, fp 1 = some p1 ∧ parseListingPage p1 = [] ∧
        ∀ pg, 2 ≤ pg → pg ≤ getTotalPages p1 →
          ∀ q, fp pg = some q → parseListingPage q = [])) := by
  have hiff : mainRun fp fd = [] ↔ collectAllSlugs fp = [] := by
    constructor
    · intro h
      by_cases hs : collectAllSlugs fp = []
      · exact hs
      · exfalso
        rcases hne : collectAllSlugs fp with _ | ⟨s, rest⟩
        · exact hs hne
        · have : mainRun fp fd ≠ [] := by
            simp only [mainRun, hne]
            rw [if_neg (by simp)]
            intro hmap
            exact dedupStubs_ne_nil s rest (List.map_eq_nil_iff.mp hmap)
          exact this h
    · intro h
      simp [mainRun, h]
  refine ⟨?_, hiff, collectAllSlugs_eq_nil fp⟩
  intro h1
  rw [hiff]
  simp [collectAllSlugs, h1]

theorem abort_conditions_witness :
    mainRun (fun _ => none) (fun _ => none) = [] ∧
    mainRun (fun _ => some ⟨[], [], []⟩) (fun _ => none) = [] :=
  ⟨(abort_conditions (fun _ => none) (fun _ => none)).1 rfl,
   ((abort_conditions (fun _ => some ⟨[], [], []⟩) (fun _ => none)).2.1).mpr
     (by decide)⟩

/-! ### The chart generator (`generate_charts.py`)

Python floats are modelled as exact rationals.  The `float(v)` parser
below accepts the finite decimal numerals (optional sign, decimal point,
scientific exponent) produced by this pipeline; `round` is modelled as
exact half-to-even decimal rounding and `int` as truncation toward
zero. -/

/-- The exponent suffix `[eE][+-]?digits` of a float literal, applied to
an already-parsed sign and mantissa; `none` on trailing junk. -/
def fltExp (sgn : ℚ) (mant : ℚ) : List Char → Option ℚ
  | [] => some (sgn * mant)
  | e :: rest =>
    if e = 'e' ∨ e = 'E' then
      let p : ℤ × List Char := match rest with
        | '+' :: r => (1, r)
        | '-' :: r => (-1, r)
        | r => (1, r)
      let eds := p.2.takeWhile Char.isDigit
      if eds = [] then none
      else if p.2.drop eds.length ≠ [] then none
      else some (sgn * mant * (10 : ℚ) ^ (p.1 * (digitsToNat eds : ℤ)))
    else none

/-- Parse a stripped float literal `[+-]?(digits[.digits*]?|.digits+)exp?`. -/
def fltCore (l : List Char) : Option ℚ :=
  let p : ℚ × List Char := match l with
    | '+' :: r => (1, r)
    | '-' :: r => (-1, r)
    | r => (1, r)
  let ds := p.2.takeWhile Char.isDigit
  let r1 := p.2.drop ds.length
  match r1 with
  | '.' :: r2 =>
    let fs := r2.takeWhile Char.isDigit
    if ds = [] ∧ fs = [] then none
    else fltExp p.1 ((digitsToNat ds : ℚ) + (digitsToNat fs : ℚ) / (10 : ℚ) ^ fs.length)
      (r2.drop fs.length)
  | _ =>
    if ds = [] then none
    else fltExp p.1 (digitsToNat ds : ℚ) r1

/-- Python `str.strip()` (ASCII whitespace). -/
def pyStrip (l : List Char) : List Char :=
  ((l.dropWhile isPyWs).reverse.dropWhile isPyWs).reverse

/-- `flt` of `generate_charts.py`: `float(v)` when `v` has non-whitespace
content and parses, else `None` (the `ValueError` branch). -/
def flt (v : String) : Option ℚ :=
  let t := pyStrip v.toList
  if t = [] then none else fltCore t

/-- Python 3 `round` to an integer: nearest, ties to even (modelled
exactly on rationals). -/
def pyRound (q : ℚ) : ℤ :=
  if q - ⌊q⌋ < 1 / 2 then ⌊q⌋
  else if 1 / 2 < q - ⌊q⌋ then ⌊q⌋ + 1
  else if ⌊q⌋ % 2 = 0 then ⌊q⌋ else ⌊q⌋ + 1

/-- `round(q, nd)`. -/
def roundTo (nd : Nat) (q : ℚ) : ℚ :=
  (pyRound (q * 10 ^ nd) : ℚ) / 10 ^ nd

/-- Python `int()` on a float: truncation toward zero. -/
def qTrunc (q : ℚ) : ℤ :=
  if 0 ≤ q then ⌊q⌋ else -⌊-q⌋

/-- `statistics.mean` (callers guarantee nonemptiness). -/
def qMean (l : List ℚ) : ℚ := l.sum / l.length

/-- The grouping key `r["category"] or "Digər"`. -/
def catKey (r : CompanyRecord) : String :=
  if r.category = "" then "Digər" else r.category

/-- One entry of the per-category item lists of `build_cat_stats`. -/
structure CatItem where
  rating : Option ℚ
  reviews : ℚ
  loyalty : Option ℚ
  response : Option ℚ
  resolved : Option ℚ
deriving DecidableEq, Repr

/-- The item dict appended for one row (lines 70–82); `reviews or 0`
coalesces both `None` and `0.0` to `0`. -/
def mkItem (r : CompanyRecord) : CatItem :=
  { rating := flt r.overall_rating,
    reviews := (flt r.total_reviews).getD 0,
    loyalty := flt r.customer_loyalty_pct,
    response := flt r.response_rate_pct,
    resolved := flt r.resolved_complaints_pct }

/-- `defaultdict` update: modify the value at `c` (feeding `none` to `f`
when the key is new, which is then appended in insertion order). -/
def upsert {α : Type} : List (String × α) → String → (Option α → α) → List (String × α)
  | [], c, f => [(c, f none)]
  | (k, v) :: rest, c, f =>
    if k = c then (k, f (some v)) :: rest else (k, v) :: upsert rest c f

/-- First value stored at key `c`. -/
def assocFind {α : Type} : List (String × α) → String → Option α
  | [], _ => none
  | (k, v) :: rest, c => if k = c then some v else assocFind rest c

/-- The `cats` accumulation loop of `build_cat_stats` (lines 68–82). -/
def groupCats (rows : List CompanyRecord) : List (String × List CatItem) :=
  rows.foldl (fun m r => upsert m (catKey r) (fun o => o.getD [] ++ [mkItem r])) []

/-- One summary entry of `build_cat_stats`. -/
structure CatSummary where
  category : String
  count : Nat
  avg_rating : ℚ
  total_reviews : ℤ
  avg_loyalty : ℚ
  avg_response : ℚ
  avg_resolved : ℚ
deriving DecidableEq, Repr

/-- The summary dict appended for one surviving category
(lines 91–102). -/
def mkSummary (c : String) (items : List CatItem) : CatSummary :=
  let with_rating := items.filter fun i => i.rating.isSome
  { category := c,
    count := items.length,
    avg_rating := roundTo 2 (qMean (with_rating.filterMap CatItem.rating)),
    total_reviews := qTrunc (items.map CatItem.reviews).sum,
    avg_loyalty := if items.any (fun i => i.loyalty.isSome)
      then roundTo 1 (qMean (items.filterMap CatItem.loyalty)) else 0,
    avg_response := if items.any (fun i => i.response.isSome)
      then roundTo 1 (qMean (items.filterMap CatItem.response)) else 0,
    avg_resolved := if items.any (fun i => i.resolved.isSome)
      then roundTo 1 (qMean (items.filterMap CatItem.resolved)) else 0 }

/-- `build_cat_stats(rows, min_companies)` (lines 67–103): categories with
fewer than `min_companies` rows or without any parsable rating are
skipped (`continue`); the rest get their aggregates. -/
def buildCatStats (rows : List CompanyRecord) (min_companies : Nat) : List CatSummary :=
  (groupCats rows).filterMap fun ci =>
    if ci.2.length < min_companies then none
    else if ci.2.filter (fun i => i.rating.isSome) = [] then none
    else some (mkSummary ci.1 ci.2)

/-- The counting loop of `chart_01_market_landscape` (lines 117–119). -/
def chart01Counts (rows : List CompanyRecord) : List (String × Nat) :=
  rows.foldl (fun m r => upsert m (catKey r) (fun o => o.getD 0 + 1)) []

/-- The filter of `chart_07_most_reviewed` (lines 289–292):
`flt(r["total_reviews"]) and flt(r["total_reviews"]) >= 10` (Python
truthiness: `None` and `0.0` are falsy). -/
def chart07Keep (r : CompanyRecord) : Bool :=
  match flt r.total_reviews with
  | none => false
  | some q => if q = 0 then false else decide (10 ≤ q)

/-- The `rated` tuple list of `chart_07_most_reviewed`. -/
def chart07Rated (rows : List CompanyRecord) : List (String × ℚ × Option ℚ) :=
  (rows.filter chart07Keep).map fun r =>
    (r.name, (flt r.total_reviews).getD 0, flt r.overall_rating)

/-! ### Bridge lemmas for the `defaultdict` groupings -/

def keysOf {α : Type} (m : List (String × α)) : List String := m.map Prod.fst

theorem assocFind_upsert {α : Type} (f : Option α → α) :
    ∀ (m : List (String × α)) (c c' : String),
      assocFind (upsert m c f) c' =
        if c' = c then some (f (assocFind m c)) else assocFind m c' := by
  intro m
  induction m with
  | nil =>
    intro c c'
    by_cases h : c' = c
    · subst h; simp [upsert, assocFind]
    · simp [upsert, assocFind, h, Ne.symm h]
  | cons kv rest ih =>
    intro c c'
    obtain ⟨k, v⟩ := kv
    by_cases hk : k = c
    · subst hk
      by_cases h' : c' = k
      · subst h'; simp [upsert, assocFind]
      · simp [upsert, assocFind, h', Ne.symm h']
    · by_cases h' : c' = c
      · subst h'
        simp [upsert, assocFind, hk, ih]
      · simp [upsert, assocFind, hk, h', ih]

theorem keysOf_nil {α : Type} : keysOf ([] : List (String × α)) = [] := rfl

theorem keysOf_cons {α : Type} (k : String) (v : α) (m : List (String × α)) :
    keysOf ((k, v) :: m) = k :: keysOf m := rfl

theorem upsert_keys {α : Type} (f : Option α → α) :
    ∀ (m : List (String × α)) (c : String),
      keysOf (upsert m c f) =
        if c ∈ keysOf m then keysOf m else keysOf m ++ [c] := by
  intro m
  induction m with
  | nil => intro c; simp [upsert, keysOf]
  | cons kv rest ih =>
    intro c
    obtain ⟨k, v⟩ := kv
    by_cases hk : k = c
    · subst hk; simp [upsert, keysOf]
    · calc keysOf (upsert ((k, v) :: rest) c f)
          = k :: keysOf (upsert rest c f) := by
            simp [upsert, hk, keysOf_cons]
        _ = k :: (if c ∈ keysOf rest then keysOf rest else keysOf rest ++ [c]) := by
            rw [ih]
        _ = if c ∈ keysOf ((k, v) :: rest) then keysOf ((k, v) :: rest)
            else keysOf ((k, v) :: rest) ++ [c] := by
            by_cases hc : c ∈ keysOf rest <;> simp [keysOf_cons, hc, Ne.symm hk]

theorem upsert_keys_nodup {α : Type} (f : Option α → α) (m : List (String × α))
    (c : String) (h : (keysOf m).Nodup) : (keysOf (upsert m c f)).Nodup := by
  rw [upsert_keys]
  split
  · exact h
  · rw [List.nodup_append]
    exact ⟨h, List.nodup_singleton c, by simpa using (by assumption)⟩

theorem foldl_upsert_nodup {α : Type} (g : CompanyRecord → Option α → α) :
    ∀ (rows : List CompanyRecord) (m : List (String × α)),
      (keysOf m).Nodup →
      (keysOf (rows.foldl (fun m r => upsert m (catKey r) (g r)) m)).Nodup := by
  intro rows
  induction rows with
  | nil => intro m h; exact h
  | cons r rs ih =>
    intro m h
    exact ih _ (upsert_keys_nodup (g r) m (catKey r) h)

theorem groupCats_keys_nodup (rows : List CompanyRecord) :
    (keysOf (groupCats rows)).Nodup :=
  foldl_upsert_nodup (fun r o => o.getD [] ++ [mkItem r]) rows [] (by simp [keysOf])

theorem chart01_keys_nodup (rows : List CompanyRecord) :
    (keysOf (chart01Counts rows)).Nodup :=
  foldl_upsert_nodup (fun _ o => o.getD 0 + 1) rows [] (by simp [keysOf])

theorem assocFind_mem {α : Type} :
    ∀ (m : List (String × α)) (c : String) (v : α),
      assocFind m c = some v → (c, v) ∈ m := by
  intro m
  induction m with
  | nil => intro c v h; exact Option.noConfusion h
  | cons kv rest ih =>
    intro c v h
    obtain ⟨k, w⟩ := kv
    by_cases hk : k = c
    · subst hk
      simp only [assocFind, if_pos rfl] at h
      cases h
      exact List.mem_cons_self _ _
    · simp only [assocFind, if_neg hk] at h
      exact List.mem_cons_of_mem _ (ih c v h)

theorem mem_assocFind {α : Type} :
    ∀ (m : List (String × α)) (c : String) (v : α),
      (keysOf m).Nodup → (c, v) ∈ m → assocFind m c = some v := by
  intro m
  induction m with
  | nil => intro c v _ h; simp at h
  | cons kv rest ih =>
    intro c v hnd hmem
    obtain ⟨k, w⟩ := kv
    simp only [keysOf, List.map_cons, List.nodup_cons] at hnd
    rcases List.mem_cons.mp hmem with heq | hmem'
    · cases heq
      simp [assocFind]
    · by_cases hk : k = c
      · subst hk
        exfalso
        exact hnd.1 (List.mem_map.mpr ⟨(k, v), hmem', rfl⟩)
      · simp only [assocFind, if_neg hk]
        exact ih c v hnd.2 hmem'

theorem groupCats_find_general :
    ∀ (rows : List CompanyRecord) (m : List (String × List CatItem)) (c : String),
      assocFind
        (rows.foldl
          (fun m r => upsert m (catKey r) (fun o => o.getD [] ++ [mkItem r])) m) c =
        match assocFind m c with
        | some v => some (v ++ (rows.filter (fun r => catKey r = c)).map mkItem)
        | none =>
          if (rows.filter (fun r => catKey r = c)) = [] then none
          else some ((rows.filter (fun r => catKey r = c)).map mkItem) := by
  intro rows
  induction rows with
  | nil =>
    intro m c
    cases hm : assocFind m c <;> simp [hm]
  | cons r rs ih =>
    intro m c
    simp only [List.foldl_cons]
    rw [ih, assocFind_upsert]
    by_cases hc : c = catKey r
    · subst hc
      cases hm : assocFind m (catKey r) <;>
        simp [List.filter_cons, hm]
    · have hrc : ¬ (catKey r = c) := fun h => hc h.symm
      cases hm : assocFind m c <;>
        simp [List.filter_cons, hm, hc, hrc]

theorem groupCats_find (rows : List CompanyRecord) (c : String) :
    assocFind (groupCats rows) c =
      if (rows.filter (fun r => catKey r = c)) = [] then none
      else some ((rows.filter (fun r => catKey r = c)).map mkItem) :=
  groupCats_find_general rows [] c

theorem chart01_find_general :
    ∀ (rows : List CompanyRecord) (m : List (String × Nat)) (c : String),
      assocFind
        (rows.foldl (fun m r => upsert m (catKey r) (fun o => o.getD 0 + 1)) m) c =
        match assocFind m c with
        | some n => some (n + (rows.filter (fun r => catKey r = c)).length)
        | none =>
          if (rows.filter (fun r => catKey r = c)) = [] then none
          else some (rows.filter (fun r => catKey r = c)).length := by
  intro rows
  induction rows with
  | nil =>
    intro m c
    cases hm : assocFind m c <;> simp [hm]
  | cons r rs ih =>
    intro m c
    simp only [List.foldl_cons]
    rw [ih, assocFind_upsert]
    by_cases hc : c = catKey r
    · subst hc
      cases hm : assocFind m (catKey r) <;>
        simp [List.filter_cons, hm, Nat.add_comm, Nat.add_assoc, Nat.add_left_comm]
    · have hrc : ¬ (catKey r = c) := fun h => hc h.symm
      cases hm : assocFind m c <;>
        simp [List.filter_cons, hm, hc, hrc]

theorem chart01_find (rows : List CompanyRecord) (c : String) :
    assocFind (chart01Counts rows) c =
      if (rows.filter (fun r => catKey r = c)) = [] then none
      else some (rows.filter (fun r => catKey r = c)).length :=
  chart01_find_general rows [] c

theorem groupCats_mem (rows : List CompanyRecord) (c : String) (l : List CatItem) :
    (c, l) ∈ groupCats rows ↔
      ((rows.filter (fun r => catKey r = c)) ≠ [] ∧
       l = (rows.filter (fun r => catKey r = c)).map mkItem) := by
  constructor
  · intro h
    have hf := mem_assocFind _ _ _ (groupCats_keys_nodup rows) h
    rw [groupCats_find] at hf
    split at hf
    · exact Option.noConfusion hf
    · cases hf
      exact ⟨by assumption, rfl⟩
  · rintro ⟨hne, rfl⟩
    apply assocFind_mem
    rw [groupCats_find, if_neg hne]

theorem buildCatStats_mem_category (rows : List CompanyRecord) (mc : Nat) (c : String) :
    c ∈ (buildCatStats rows mc).map CatSummary.category ↔
      ∃ l, (c, l) ∈ groupCats rows ∧ ¬ l.length < mc ∧
        l.filter (fun i => i.rating.isSome) ≠ [] := by
  constructor
  · intro h
    rcases List.mem_map.mp h with ⟨e, he, hcat⟩
    rcases List.mem_filterMap.mp he with ⟨ci, hci, hmk⟩
    obtain ⟨c', l⟩ := ci
    dsimp only at hmk
    by_cases h1 : l.length < mc
    · rw [if_pos h1] at hmk
      exact Option.noConfusion hmk
    · by_cases h2 : l.filter (fun i => i.rating.isSome) = []
      · rw [if_neg h1, if_pos h2] at hmk
        exact Option.noConfusion hmk
      · rw [if_neg h1, if_neg h2] at hmk
        have he' : e = mkSummary c' l := (Option.some.inj hmk).symm
        have hcc : c' = c := by
          rw [he'] at hcat
          simpa [mkSummary] using hcat
        subst hcc
        exact ⟨l, hci, h1, h2⟩
  · rintro ⟨l, hmem, h1, h2⟩
    apply List.mem_map.mpr
    refine ⟨mkSummary c l,
      List.mem_filterMap.mpr ⟨(c, l), hmem, ?_⟩, rfl⟩
    dsimp only
    rw [if_neg h1, if_neg h2]

/-- C6 (amended): `build_cat_stats` with minimum 5 never emits a category
with fewer than 5 rows, and does emit every category with exactly 5 rows
*provided at least one of them has a parsable rating* (the claim's
unconditional inclusion fails on a 5-row category whose ratings all fail
to parse); the most-reviewed filter of chart 7 keeps a row exactly when
its parsed review count is at least 10 (so exactly 10 is kept, fewer than
10 is dropped). -/
theorem category_thresholds (rows : List CompanyRecord) :
    (∀ c, c ∈ (buildCatStats rows 5).map CatSummary.category →
      5 ≤ (rows.filter (fun r => catKey r = c)).length) ∧
    (∀ c, (rows.filter (fun r => catKey r = c)).length = 5 →
      (∃ r ∈ rows, catKey r = c ∧ flt r.overall_rating ≠ none) →
      c ∈ (buildCatStats rows 5).map CatSummary.category) ∧
    (∀ r : CompanyRecord, chart07Keep r = true ↔
      ∃ q, flt r.total_reviews = some q ∧ 10 ≤ q) := by
  refine ⟨?_, ?_, ?_⟩
  · intro c hc
    rcases (buildCatStats_mem_category rows 5 c).mp hc with ⟨l, hmem, h1, _⟩
    rcases (groupCats_mem rows c l).mp hmem with ⟨_, rfl⟩
    rw [List.length_map] at h1
    omega
  · intro c hlen hex
    apply (buildCatStats_mem_category rows 5 c).mpr
    have hne : rows.filter (fun r => catKey r = c) ≠ [] := by
      intro h
      rw [h] at hlen
      simp at hlen
    refine ⟨(rows.filter (fun r => catKey r = c)).map mkItem,
      (groupCats_mem rows c _).mpr ⟨hne, rfl⟩, ?_, ?_⟩
    · rw [List.length_map, hlen]
      omega
    · rcases hex with ⟨r, hr, hcat, hrat⟩
      have hrfl : r ∈ rows.filter (fun r => catKey r = c) :=
        List.mem_filter.mpr ⟨hr, by simp [hcat]⟩
      have hmm' : mkItem r ∈ (rows.filter (fun r => catKey r = c)).map mkItem :=
        List.mem_map_of_mem _ hrfl
      have hsome : (mkItem r).rating.isSome := by
        simp only [mkItem, Option.isSome_iff_ne_none]
        exact hrat
      exact List.ne_nil_of_mem (List.mem_filter.mpr ⟨hmm', hsome⟩)
  · intro r
    unfold chart07Keep
    cases hf : flt r.total_reviews with
    | none => simp
    | some q =>
      by_cases hq : q = 0
      · subst hq
        simp only [if_pos rfl]
        constructor
        · intro h; exact Bool.noConfusion h
        · rintro ⟨q', hq', hle⟩
          cases Option.some.inj hq'
          norm_num at hle
      · simp only [if_neg hq, decide_eq_true_eq]
        constructor
        · intro h; exact ⟨q, rfl, h⟩
        · rintro ⟨q', hq', hle⟩
          cases Option.some.inj hq'
          exact hle

/-- Five rows in category `"B"` with unparsable (empty) ratings. -/
def noRatingRow : CompanyRecord := { emptyRecord with category := "B" }

def rowsNoRating : List CompanyRecord := List.replicate 5 noRatingRow

/-- C6 counterexample to the claim as stated: a category with exactly 5
companies is *excluded* from the summary when none of its ratings
parses. -/
theorem category_thresholds_counterexample :
    (rowsNoRating.filter (fun r => catKey r = "B")).length = 5 ∧
    ("B" : String) ∉ (buildCatStats rowsNoRating 5).map CatSummary.category := by
  decide

/-- Five rows in category `"B"` with rating `"4"`. -/
def ratedRow : CompanyRecord := { emptyRecord with category := "B", overall_rating := "4" }

def rowsRated : List CompanyRecord := List.replicate 5 ratedRow

theorem category_thresholds_witness :
    ("B" : String) ∈ (buildCatStats rowsRated 5).map CatSummary.category :=
  (category_thresholds rowsRated).2.1 "B" (by decide)
    ⟨ratedRow, by decide, by decide, by decide⟩

/-- C9: every category emitted by `build_cat_stats` contains at least one
row whose `overall_rating` parses (so `avg_rating` is never a mean over
an empty selection), and a category all of whose ratings fail to parse is
silently excluded, however many rows it has. -/
theorem summary_requires_rating (rows : List CompanyRecord) (mc : Nat) :
    (∀ c ∈ (buildCatStats rows mc).map CatSummary.category,
      ∃ r ∈ rows, catKey r = c ∧ flt r.overall_rating ≠ none) ∧
    (∀ c, (∀ r ∈ rows, catKey r = c → flt r.overall_rating = none) →
      c ∉ (buildCatStats rows mc).map CatSummary.category) := by
  have part1 : ∀ c ∈ (buildCatStats rows mc).map CatSummary.category,
      ∃ r ∈ rows, catKey r = c ∧ flt r.overall_rating ≠ none := by
    intro c hc
    rcases (buildCatStats_mem_category rows mc c).mp hc with ⟨l, hmem, _, h2⟩
    rcases (groupCats_mem rows c l).mp hmem with ⟨_, rfl⟩
    rcases List.exists_mem_of_ne_nil _ h2 with ⟨item, hitem⟩
    rcases List.mem_filter.mp hitem with ⟨hinl, hsome⟩
    rcases List.mem_map.mp hinl with ⟨r, hrfil, rfl⟩
    rcases List.mem_filter.mp hrfil with ⟨hrrows, hcat⟩
    refine ⟨r, hrrows, by simpa using hcat, ?_⟩
    simpa [mkItem, Option.isSome_iff_ne_none] using hsome
  refine ⟨part1, ?_⟩
  intro c hall hc
  rcases part1 c hc with ⟨r, hr, hcat, hrat⟩
  exact hrat (hall r hr hcat)

/-- Six rows in category `"C"` with rating `"3.5"`. -/
def ratedRowC : CompanyRecord :=
  { emptyRecord with category := "C", overall_rating := "3.5" }

def rowsRatedC : List CompanyRecord := List.replicate 6 ratedRowC

theorem summary_requires_rating_witness :
    ∃ r ∈ rowsRatedC, catKey r = "C" ∧ flt r.overall_rating ≠ none :=
  (summary_requires_rating rowsRatedC 5).1 "C" (by decide)

/-- A row with an empty category (and a parsable rating). -/
def digerRow : CompanyRecord := { emptyRecord with overall_rating := "4" }

def digerRows : List CompanyRecord := List.replicate 5 digerRow

/-- C10: rows with an empty category are not dropped — both the
`build_cat_stats` grouping and the chart-1 company count file them under
the substitute key `"Digər"`, which can therefore itself appear in the
chart outputs. -/
theorem diger_bucket (rows : List CompanyRecord) :
    (∀ c n, assocFind (chart01Counts rows) c = some n →
      n = (rows.filter (fun x => catKey x = c)).length) ∧
    (∀ r ∈ rows, r.category = "" →
      assocFind (chart01Counts rows) "Digər"
        = some ((rows.filter (fun x => catKey x = "Digər")).length) ∧
      ∃ l, assocFind (groupCats rows) "Digər" = some l ∧ mkItem r ∈ l) ∧
    ("Digər" : String) ∈ (buildCatStats digerRows 5).map CatSummary.category := by
  refine ⟨?_, ?_, by decide⟩
  · intro c n h
    rw [chart01_find] at h
    split at h
    · exact Option.noConfusion h
    · cases h; rfl
  · intro r hr hcat
    have hkey : catKey r = "Digər" := by simp [catKey, hcat]
    have hrfl : r ∈ rows.filter (fun x => catKey x = "Digər") :=
      List.mem_filter.mpr ⟨hr, by simp [hkey]⟩
    have hne : rows.filter (fun x => catKey x = "Digər") ≠ [] :=
      List.ne_nil_of_mem hrfl
    refine ⟨by rw [chart01_find, if_neg hne], ?_⟩
    refine ⟨_, by rw [groupCats_find, if_neg hne], ?_⟩
    exact List.mem_map_of_mem _ hrfl

theorem diger_bucket_witness :
    assocFind (chart01Counts digerRows) "Digər"
      = some ((digerRows.filter (fun x => catKey x = "Digər")).length) ∧
    ∃ l, assocFind (groupCats digerRows) "Digər" = some l ∧ mkItem digerRow ∈ l :=
  (diger_bucket digerRows).2.1 digerRow (by decide) (by decide)

end Bildir
